import Mathlib

/-!
Verification development for the `neo_rl_exec` limit-order-book simulator.

Python floats are modelled as rationals (`ℚ`); Python exceptions are
modelled with `Except String`; Python `None` as `Option.none`.  Each
definition is a direct shallow embedding of the corresponding function in
the repository, with the source file noted in its doc comment.
-/

namespace NeoRL

/-- Equality of embedded Python results (exception or value) is decidable,
so the theorems below can be checked on concrete inputs by `decide`. -/
instance {ε α : Type} [DecidableEq ε] [DecidableEq α] :
    DecidableEq (Except ε α)
  | .error a, .error b =>
    match decEq a b with
    | isTrue h => isTrue (congrArg Except.error h)
    | isFalse h => isFalse fun hc => h (Except.noConfusion hc id)
  | .error _, .ok _ => isFalse fun hc => Except.noConfusion hc
  | .ok _, .error _ => isFalse fun hc => Except.noConfusion hc
  | .ok a, .ok b =>
    match decEq a b with
    | isTrue h => isTrue (congrArg Except.ok h)
    | isFalse h => isFalse fun hc => h (Except.noConfusion hc id)

/-- One price level of the order book, i.e. one of the per-level dicts built
by `get_values` in `orderbook/timestamp.py` (same fields as a row of the
long-format series produced by `lob_data/ingestion.py`). -/
structure Level where
  side : String
  level : ℤ
  midpoint_USD : ℚ
  distance_to_mid : ℚ
  notional_USD : ℚ
  size_BTC : ℚ
  cancel_notional_USD : ℚ
  limit_notional_USD : ℚ
  market_notional_USD : ℚ
  deriving DecidableEq

/-- One row of the long-format series (`lob_data/ingestion.py` schema):
the same per-level fields plus the snapshot timestamp. -/
structure Row where
  timestamp_ns : ℤ
  side : String
  level : ℤ
  midpoint_USD : ℚ
  distance_to_mid : ℚ
  notional_USD : ℚ
  size_BTC : ℚ
  cancel_notional_USD : ℚ
  limit_notional_USD : ℚ
  market_notional_USD : ℚ
  deriving DecidableEq

/-- The dict returned by `get_values` (`orderbook/timestamp.py`): the ask
levels and the bid levels at one timestamp. -/
structure Snapshot where
  ask_values : List Level
  bid_values : List Level
  deriving DecidableEq

/-- Projection of a series row to the per-level dict that `get_values`
appends to `ask_values` / `bid_values` (it copies every field except the
timestamp). -/
def rowToLevel (r : Row) : Level :=
  { side := r.side, level := r.level, midpoint_USD := r.midpoint_USD,
    distance_to_mid := r.distance_to_mid, notional_USD := r.notional_USD,
    size_BTC := r.size_BTC, cancel_notional_USD := r.cancel_notional_USD,
    limit_notional_USD := r.limit_notional_USD,
    market_notional_USD := r.market_notional_USD }

/-- Embedding of `get_values` (`orderbook/timestamp.py`).  It raises
`ValueError` when the timestamp is absent; otherwise it takes the first row
index matching the timestamp and collects rows `index+39 .. index+20`
(in that order) as `ask_values` and rows `index+0 .. index+19` as
`bid_values`, skipping any index that falls past the end of the series
(the `if index + lvl < len(df)` bounds check). -/
def get_values (ts : ℤ) (df : List Row) : Except String Snapshot :=
  match List.findIdx? (fun r => r.timestamp_ns == ts) df with
  | none => .error "ValueError"
  | some index =>
    let ask_values := ((List.range' 20 20).reverse).filterMap
      (fun lvl => (df.get? (index + lvl)).map rowToLevel)
    let bid_values := (List.range 20).filterMap
      (fun lvl => (df.get? (index + lvl)).map rowToLevel)
    .ok { ask_values := ask_values, bid_values := bid_values }

/-- Embedding of `midpoint` (`orderbook/indicators.py`): midpoint of the
first ask level if asks are present, else of the first bid level, else
`None`. -/
def midpoint (values : Snapshot) : Option ℚ :=
  match values.ask_values with
  | a :: _ => some a.midpoint_USD
  | [] =>
    match values.bid_values with
    | b :: _ => some b.midpoint_USD
    | [] => none

/-- Embedding of `VAMP_ask` (`orderbook/indicators.py`): `None` on an empty
ask list, otherwise `sum(notional) / sum(size)` — a `ZeroDivisionError`
when the total size is zero. -/
def VAMP_ask (ask_values : List Level) : Except String (Option ℚ) :=
  if ask_values.isEmpty then .ok none
  else
    let den := (ask_values.map (fun a => a.size_BTC)).sum
    if den = 0 then .error "ZeroDivisionError"
    else .ok (some ((ask_values.map (fun a => a.notional_USD)).sum / den))

/-- Embedding of `VAMP_bid` (`orderbook/indicators.py`).  Unlike `VAMP_ask`
there is no emptiness check in the source: the function immediately
computes `sum(notional) / sum(size)`, so a zero total size (in particular
an empty list, where both sums are 0) is a `ZeroDivisionError`. -/
def VAMP_bid (bid_values : List Level) : Except String (Option ℚ) :=
  let den := (bid_values.map (fun b => b.size_BTC)).sum
  if den = 0 then .error "ZeroDivisionError"
  else .ok (some ((bid_values.map (fun b => b.notional_USD)).sum / den))

/-- Result of `orderbook_slope`: the `(None, None)` tuple on an empty
sliced side, or the `{"BID": ..., "ASK": ...}` dict. -/
inductive SlopeResult where
  | noData
  | slopes (bid ask : ℚ)
  deriving DecidableEq

/-- Embedding of Python `round(x, 6)` used by `orderbook_slope`.  Ties in
the 7th decimal are rounded here with `round` on `ℚ`; CPython rounds the
underlying binary float half-to-even, which agrees except exactly at such
ties. -/
def round6 (q : ℚ) : ℚ := ((round (q * 1000000) : ℤ) : ℚ) / 1000000

/-- Embedding of `orderbook_slope` (`orderbook/indicators.py`).  It slices
`bid_values[:n]` and `ask_values[-n:]`, returns `(None, None)` when either
slice is empty, and otherwise computes `abs((first - last distance) /
depth if depth > 0 else None)` per side — when a depth is not positive the
source applies `abs` to `None`, a `TypeError`. -/
def orderbook_slope (values : Snapshot) (n_levels : ℕ) : Except String SlopeResult :=
  let bid_values := values.bid_values.take n_levels
  let ask_values := values.ask_values.drop (values.ask_values.length - n_levels)
  match bid_values, ask_values with
  | [], _ => .ok .noData
  | _, [] => .ok .noData
  | b0 :: bs, a0 :: ars =>
    let bid_depth := ((b0 :: bs).map (fun l => l.size_BTC)).sum
    let ask_depth := ((a0 :: ars).map (fun l => l.size_BTC)).sum
    if bid_depth ≤ 0 then .error "TypeError"
    else if ask_depth ≤ 0 then .error "TypeError"
    else
      let bid_slope := |(b0.distance_to_mid - ((b0 :: bs).getLastD b0).distance_to_mid) / bid_depth|
      let ask_slope := |(((a0 :: ars).getLastD a0).distance_to_mid - a0.distance_to_mid) / ask_depth|
      .ok (.slopes (round6 bid_slope) (round6 ask_slope))

/-- The fill loop shared by both copies of `slippage`
(`orderbook/indicators.py` and `simulator/performance.py`): walk the given
level list accumulating `(filled, cost)`, stopping with a prorated fill at
the level where the requested quantity is reached. -/
def slippageLoop : List Level → ℚ → ℚ × ℚ → ℚ × ℚ
  | [], _, acc => acc
  | lvl :: rest, quantity_BTC, (filled, cost) =>
    let size := lvl.size_BTC
    let price := lvl.midpoint_USD + lvl.distance_to_mid
    if quantity_BTC ≤ filled + size then
      (quantity_BTC, cost + (quantity_BTC - filled) * price)
    else
      slippageLoop rest quantity_BTC (filled + size, cost + size * price)

/-- Embedding of `slippage` (`orderbook/indicators.py`; the
`simulator/performance.py` copy runs the same code once `quantity_BTC` is
given).  Midpoint from the first ask level, else first bid level, else
`None`; `None` when the chosen depth side is empty or when the book cannot
fill the quantity.  The walked list is `ask_values` as stored for a buy
and `reversed(bid_values)` for a sell.  A zero requested quantity that is
"filled" leads to `cost / quantity_BTC`, a `ZeroDivisionError`. -/
def slippage (values : Snapshot) (quantity_BTC : ℚ) (side : String) :
    Except String (Option ℚ) :=
  let bid_values := values.bid_values
  let ask_values := values.ask_values
  let midpoint_val : Option ℚ :=
    match ask_values with
    | a :: _ => some a.midpoint_USD
    | [] =>
      match bid_values with
      | b :: _ => some b.midpoint_USD
      | [] => none
  match midpoint_val with
  | none => .ok none
  | some m =>
    if m = 0 then .ok none
    else
      let depth := if side = "buy" then ask_values else bid_values
      if depth.isEmpty then .ok none
      else
        let levels := if side = "buy" then depth else depth.reverse
        let fc := slippageLoop levels quantity_BTC (0, 0)
        if fc.1 < quantity_BTC then .ok none
        else if quantity_BTC = 0 then .error "ZeroDivisionError"
        else
          let exec_price := fc.2 / quantity_BTC
          if side = "buy" then .ok (some ((exec_price - m) / m * 100))
          else .ok (some ((m - exec_price) / m * 100))

/-- Embedding of `transaction_cost` (`simulator/action.py`): the taker fee
is 7.0 bps, the maker fee 2.5 bps, with a minimum ticket of 50 applied in
whatever unit `amount` is expressed in. -/
def transaction_cost (amount : ℚ) (is_maker : Bool) : ℚ :=
  let maker_fee_bps : ℚ := 5 / 2
  let taker_fee_bps : ℚ := 7
  let min_ticket_usd : ℚ := 50
  let fee_rate_bps := if is_maker then maker_fee_bps else taker_fee_bps
  let fee := amount * (fee_rate_bps / 10000)
  max fee min_ticket_usd

/-- Result of `buy` / `sell` (`simulator/action.py`): the 2-element
rejection list `[cash, btc]` or the 4-element execution list
`[cash, btc, filled, label]`. -/
inductive ActionResult where
  | rejected (cash btc : ℚ)
  | executed (cash btc filled : ℚ) (label : String)
  deriving DecidableEq

/-- The fill loop of `buy` (`simulator/action.py`, lines 49-64):
accumulates `(total_cost, total_btc)` over the iterated ask levels,
taking each full notional while it fits in `amount` and otherwise a final
prorated fill `remaining / price` — a `ZeroDivisionError` when that
level's reconstructed price is zero. -/
def buyLoop : List Level → ℚ → ℚ × ℚ → Except String (ℚ × ℚ)
  | [], _, acc => .ok acc
  | ask :: rest, amount, (total_cost, total_btc) =>
    let price := ask.midpoint_USD * (1 + ask.distance_to_mid)
    let notional := ask.notional_USD
    if total_cost + notional ≤ amount then
      buyLoop rest amount (total_cost + notional, total_btc + ask.size_BTC)
    else
      if price = 0 then .error "ZeroDivisionError"
      else .ok (total_cost + (amount - total_cost), total_btc + (amount - total_cost) / price)

/-- Embedding of `buy` (`simulator/action.py`).  Rejects, returning the
balances unchanged, when `amount + tx_cost > current_cash or amount <= 0`;
otherwise walks `reversed(ask_values)`, deducts `total_cost + tx_cost`
from cash and credits the acquired quantity.  When the acquired quantity
is positive the source also reads `ask_values[0]['midpoint_USD']` and
divides by it (the average-price report), so an empty ask list there is an
`IndexError` and a zero midpoint a `ZeroDivisionError`. -/
def buy (amount : ℚ) (ask_values : List Level) (current_cash current_btc : ℚ) :
    Except String ActionResult :=
  let tx_cost := transaction_cost amount false
  if amount + tx_cost > current_cash ∨ amount ≤ 0 then
    .ok (.rejected current_cash current_btc)
  else
    match buyLoop ask_values.reverse amount (0, 0) with
    | .error e => .error e
    | .ok (total_cost, total_btc) =>
      if 0 < total_btc then
        match ask_values with
        | [] => .error "IndexError"
        | a0 :: _ =>
          if a0.midpoint_USD = 0 then .error "ZeroDivisionError"
          else .ok (.executed (current_cash - (total_cost + tx_cost))
            (current_btc + total_btc) total_btc "buy")
      else
        .ok (.executed (current_cash - (total_cost + tx_cost))
          (current_btc + total_btc) total_btc "buy")

/-- The fill loop of `sell` (`simulator/action.py`, lines 91-105):
accumulates `(total_btc_sold, total_revenue)` over the iterated bid
levels, selling each full size while it fits in `amount` and otherwise a
final prorated amount. -/
def sellLoop : List Level → ℚ → ℚ × ℚ → ℚ × ℚ
  | [], _, acc => acc
  | bid :: rest, amount, (total_btc_sold, total_revenue) =>
    let price := bid.midpoint_USD * (1 + bid.distance_to_mid)
    let size := bid.size_BTC
    if total_btc_sold + size ≤ amount then
      sellLoop rest amount (total_btc_sold + size, total_revenue + size * price)
    else
      (total_btc_sold + (amount - total_btc_sold),
       total_revenue + (amount - total_btc_sold) * price)

/-- Embedding of `sell` (`simulator/action.py`).  Rejects, returning the
balances unchanged, when `amount + tx_cost > current_btc or amount <= 0`;
otherwise walks `bid_values` in order, credits the revenue and deducts
`total_btc_sold + tx_cost` (the fee is charged in base-asset units).  As
in `buy`, a positive sold quantity makes the source read
`bid_values[0]['midpoint_USD']` and divide by it. -/
def sell (amount : ℚ) (bid_values : List Level) (current_cash current_btc : ℚ) :
    Except String ActionResult :=
  let tx_cost := transaction_cost amount false
  if amount + tx_cost > current_btc ∨ amount ≤ 0 then
    .ok (.rejected current_cash current_btc)
  else
    let st := sellLoop bid_values amount (0, 0)
    if 0 < st.1 then
      match bid_values with
      | [] => .error "IndexError"
      | b0 :: _ =>
        if b0.midpoint_USD = 0 then .error "ZeroDivisionError"
        else .ok (.executed (current_cash + st.2)
          (current_btc - (st.1 + tx_cost)) st.1 "sell")
    else
      .ok (.executed (current_cash + st.2)
        (current_btc - (st.1 + tx_cost)) st.1 "sell")

/-- The performance record returned by `get_performance`
(`simulator/performance.py`). -/
structure Performance where
  cash_at_t : ℚ
  btc_at_t : ℚ
  initial_cash : ℚ
  initial_btc : ℚ
  total_portfolio_value : ℚ
  pnl : ℚ
  pnl_percentage : ℚ
  achieved_goal : Bool
  duration : ℤ
  target : ℚ
  goal : String
  deriving DecidableEq

/-- Embedding of `get_performance` (`simulator/performance.py`).  The
source reads `values_at_ts['ask_values'][0]['midpoint_USD']`
unconditionally to value the portfolio, so an empty ask side is an
`IndexError`. -/
def get_performance (initial_cash initial_btc current_cash current_btc : ℚ)
    (values_at_ts : Snapshot) (goal : String) (target : ℚ) (duration : ℤ) :
    Except String Performance :=
  match values_at_ts.ask_values with
  | [] => .error "IndexError"
  | a0 :: _ =>
    let total_value := current_cash + current_btc * a0.midpoint_USD
    let initial_value := initial_cash + initial_btc * a0.midpoint_USD
    let pnl := total_value - initial_value
    let pnl_percentage := if initial_value ≠ 0 then pnl / initial_value * 100 else 0
    let achieved := if goal = "cash" then decide (current_cash ≤ initial_cash * target)
                    else decide (current_btc ≤ initial_btc * target)
    .ok { cash_at_t := current_cash, btc_at_t := current_btc,
          initial_cash := initial_cash, initial_btc := initial_btc,
          total_portfolio_value := total_value, pnl := pnl,
          pnl_percentage := pnl_percentage, achieved_goal := achieved,
          duration := duration, target := target, goal := goal }

/-- Weight of the per-step PnL term (`RL/reward.py`). -/
def PNL_WEIGHT_STEP : ℚ := 100

/-- The progress-weighted, goal-asymmetric penalty computed identically in
both branches of `compute_reward_at_t` (`RL/reward.py`, lines 27-44 and
51-68): deviation of the cash/inventory ratio from target, squared,
asymmetric by goal, scaled by the squared progress fraction.  It reads
only `cash_at_t`, `btc_at_t`, `initial_cash`, `initial_btc`, `target`,
`goal` and `duration`. -/
def penalty_term (performance : Performance) (step : ℤ) : ℚ :=
  let progress : ℚ := min 1 (max 0 ((step : ℚ) / max 1 (performance.duration : ℚ)))
  let tr : ℚ :=
    if performance.goal = "cash" then
      performance.cash_at_t / max (1 / 1000000000) (performance.initial_cash * performance.target)
    else
      performance.btc_at_t / max (1 / 1000000000) (performance.initial_btc * performance.target)
  let over := max 0 (tr - 1)
  let under := max 0 (1 - tr)
  if performance.goal = "cash" then (1 * over ^ 2 + 2 * under ^ 2) * progress ^ 2
  else (2 * over ^ 2 + 1 * under ^ 2) * progress ^ 2

/-- Embedding of `compute_reward_at_t` (`RL/reward.py`), returning the
triple `[reward_at_t, sum_rewards, pnl_percentage]`.  At `step == 1` the
PnL term uses the absolute `pnl_percentage` and the running sum is reset
to the step reward; otherwise the PnL term uses
`pnl_percentage - previous_pnl` and the step reward is added to the
running sum. -/
def compute_reward_at_t (performance : Performance) (sum_rewards : ℚ)
    (step : ℤ) (previous_pnl : ℚ) : ℚ × ℚ × ℚ :=
  if step = 1 then
    let r := PNL_WEIGHT_STEP * ((1 + performance.pnl_percentage) ^ 2 - 1) -
      penalty_term performance step
    (r, r, performance.pnl_percentage)
  else
    let r := PNL_WEIGHT_STEP * ((1 + (performance.pnl_percentage - previous_pnl)) ^ 2 - 1) -
      penalty_term performance step
    (r, sum_rewards + r, performance.pnl_percentage)

/-- Cash component of an action result (first element of the returned
list in both the 2-element and the 4-element form). -/
def finalCash : ActionResult → ℚ
  | .rejected c _ => c
  | .executed c _ _ _ => c

/-- Test fixture: a level with the given rank, midpoint, distance,
notional and size (flow fields zero). -/
def mkLvl (lv : ℤ) (m d n s : ℚ) : Level :=
  { side := "X", level := lv, midpoint_USD := m, distance_to_mid := d,
    notional_USD := n, size_BTC := s, cancel_notional_USD := 0,
    limit_notional_USD := 0, market_notional_USD := 0 }

/-- Test fixture for the slippage claims: midpoint 100; asks in the store
order produced by `get_values` (worst level first, best ask last), bids
best-first.  The best ask is level 0 at distance 0.1, the worst ask level
1 at distance 0.5; each level carries size 10. -/
def snapC1 : Snapshot :=
  { ask_values := [mkLvl 1 100 (1/2) 1005 10, mkLvl 0 100 (1/10) 1001 10],
    bid_values := [mkLvl 0 100 (-1/10) 999 10, mkLvl 1 100 (-3/10) 997 10] }

/-- Test fixture: a level with zero resting size. -/
def zeroSizeLevel : Level := mkLvl 0 100 (1/10) 0 0

/-- Test fixture for the fee-floor claim: a single bid at the midpoint
(100 USD) with size 100 BTC. -/
def bidFloor : Level := mkLvl 0 100 0 10000 100

/-- Test fixture for the round-trip witness: one ask at the midpoint
100 USD with notional 1000 USD (size 10). -/
def askRT : Level := mkLvl 0 100 0 1000 10

/-- Test fixture for the round-trip witness: one bid 1 percent below the
midpoint with size 10. -/
def bidRT : Level := mkLvl 0 100 (-1/100) 990 10

/-- Test fixture for the exceeding-depth claim: one ask at the midpoint
with notional 100 USD and size 1. -/
def askDeep : Level := mkLvl 0 100 0 100 1

/-- Test fixture: row `i` of a 40-row snapshot at timestamp 0; the row
index is recorded in the `level` field so the slicing order is visible in
the result. -/
def mkRow (i : ℕ) : Row :=
  { timestamp_ns := 0, side := if i < 20 then "BID" else "ASK", level := (i : ℤ),
    midpoint_USD := 100, distance_to_mid := 0, notional_USD := 0, size_BTC := 0,
    cancel_notional_USD := 0, limit_notional_USD := 0, market_notional_USD := 0 }

/-- Test fixture: a full 40-row snapshot series at timestamp 0 (rows 0-19
are the bid rows, rows 20-39 the ask rows, as `normalise_lob` lays them
out). -/
def sampleDf : List Row := (List.range 40).map mkRow

/-- Test fixture: a concrete performance record. -/
def samplePerf : Performance :=
  { cash_at_t := 900, btc_at_t := 7, initial_cash := 1000, initial_btc := 5,
    total_portfolio_value := 1600, pnl := 100, pnl_percentage := 4,
    achieved_goal := false, duration := 10, target := 1/2, goal := "cash" }

/-!  Supporting lemmas about the row-collection loops of `get_values`. -/

/-- Collecting `df.get?` over consecutive indices past the end of the
series yields nothing. -/
theorem filterMap_get_out (df : List Row) (i : ℕ) :
    ∀ (n s : ℕ), df.length ≤ i + s →
      (List.range' s n).filterMap (fun lvl => df.get? (i + lvl)) = [] := by
  intro n
  induction n with
  | zero => intro s _; simp
  | succ n ih =>
    intro s hs
    rw [List.range'_succ, List.filterMap_cons]
    have h0 : df.get? (i + s) = none := List.get?_eq_none.mpr hs
    rw [h0]
    exact ih (s + 1) (le_trans hs (by omega))

/-- Collecting `df.get?` over the index window `[i+s, i+s+n)` is the
`take n` of the `drop (i+s)` of the series. -/
theorem filterMap_get_window (df : List Row) (i : ℕ) :
    ∀ (n s : ℕ),
      (List.range' s n).filterMap (fun lvl => df.get? (i + lvl)) =
        (df.drop (i + s)).take n := by
  intro n
  induction n with
  | zero => simp
  | succ n ih =>
    intro s
    rw [List.range'_succ, List.filterMap_cons]
    cases h0 : df.get? (i + s) with
    | none =>
      have hlen : df.length ≤ i + s := List.get?_eq_none.mp h0
      rw [filterMap_get_out df i n (s + 1) (le_trans hlen (by omega))]
      rw [List.drop_eq_nil_of_le hlen]
      simp
    | some r =>
      obtain ⟨hlt, hget⟩ := List.get?_eq_some.mp h0
      have hdrop : df.drop (i + s) = df.get ⟨i + s, hlt⟩ :: df.drop (i + s + 1) :=
        List.drop_eq_get_cons hlt
      rw [hdrop, List.take_succ_cons, hget, ih (s + 1)]
      have : i + (s + 1) = i + s + 1 := by omega
      rw [this]

/-- Pushing a total map through a `filterMap` of an optional lookup. -/
theorem filterMap_optmap {α β γ : Type} (f : α → Option β) (g : β → γ)
    (l : List α) :
    l.filterMap (fun x => (f x).map g) = (l.filterMap f).map g := by
  induction l with
  | nil => rfl
  | cons a t ih => cases h : f a <;> simp [List.filterMap_cons, h, ih]

/-- Characterization of `get_values` on a present timestamp: with `index`
the first matching row index, the bid block is rows
`index .. index+19` in forward order and the ask block is rows
`index+20 .. index+39` in reverse order (truncated at the end of the
series in both cases). -/
theorem get_values_some (df : List Row) (ts : ℤ) (index : ℕ)
    (h : List.findIdx? (fun r => r.timestamp_ns == ts) df = some index) :
    get_values ts df = .ok
      { ask_values := (((df.drop (index + 20)).take 20).map rowToLevel).reverse,
        bid_values := ((df.drop index).take 20).map rowToLevel } := by
  have hask : ((List.range' 20 20).reverse).filterMap
      (fun lvl => (df.get? (index + lvl)).map rowToLevel) =
      (((df.drop (index + 20)).take 20).map rowToLevel).reverse := by
    rw [List.filterMap_reverse, filterMap_optmap, filterMap_get_window df index 20 20]
  have hbid : (List.range 20).filterMap
      (fun lvl => (df.get? (index + lvl)).map rowToLevel) =
      ((df.drop index).take 20).map rowToLevel := by
    rw [List.range_eq_range', filterMap_optmap, filterMap_get_window df index 20 0]
    simp
  simp only [get_values, h, hask, hbid]

/-- A successful `findIdx?` exhibits a member satisfying the predicate. -/
theorem exists_of_findIdx?_some {α : Type} (p : α → Bool) :
    ∀ (l : List α) (s i : ℕ), List.findIdx? p l s = some i → ∃ x ∈ l, p x := by
  intro l
  induction l with
  | nil => intro s i h; simp [List.findIdx?] at h
  | cons a t ih =>
    intro s i h
    rw [List.findIdx?_cons] at h
    by_cases hp : p a
    · exact ⟨a, List.mem_cons_self a t, hp⟩
    · rw [if_neg hp] at h
      obtain ⟨x, hx, hpx⟩ := ih (s + 1) i h
      exact ⟨x, List.mem_cons_of_mem a hx, hpx⟩

/-- C1: evaluation of `slippage` at a snapshot in the store's orientation
(asks worst-to-best, best ask last; bids best-to-worst).  A buy of 5 BTC
fits entirely inside the best ask level (size 10, distance 0.1, price
100.1), so a best-to-worst walk would report slippage 0.1; the code walks
`ask_values` front-to-back, fills at the worst ask (price 100.5) and
reports 0.5.  Symmetrically a sell of 5 BTC fits inside the best bid
(price 99.9, slippage 0.1) but the code walks `reversed(bid_values)`,
fills at the worst bid (price 99.7) and reports 0.3.  A quantity beyond
the total depth does return `None`. -/
theorem C1_slippage_consumes_worst_first :
    slippage snapC1 5 "buy" = .ok (some (1 / 2))
    ∧ slippage snapC1 5 "sell" = .ok (some (3 / 10))
    ∧ (1 / 10 : ℚ) < 1 / 2 ∧ (1 / 10 : ℚ) < 3 / 10
    ∧ slippage snapC1 1000 "buy" = .ok none := by
  have hsb : (("sell" : String) = "buy") = False := eq_false (by decide)
  refine ⟨?_, ?_, by norm_num, by norm_num, ?_⟩
  · norm_num [slippage, slippageLoop, snapC1, mkLvl]
  · norm_num [slippage, slippageLoop, snapC1, mkLvl, hsb]
  · norm_num [slippage, slippageLoop, snapC1, mkLvl]

/-- C2: the indicator functions are not exception-free.  `VAMP_bid` on an
empty bid list divides zero by zero (`ZeroDivisionError`), `VAMP_ask` on a
side whose total size is zero divides by zero, and `orderbook_slope` on
zero-size sides applies `abs` to `None` (`TypeError`), instead of the
`None` their docstrings and the spec promise. -/
theorem C2_indicators_can_raise :
    VAMP_bid [] = .error "ZeroDivisionError"
    ∧ VAMP_ask [zeroSizeLevel] = .error "ZeroDivisionError"
    ∧ orderbook_slope { ask_values := [zeroSizeLevel], bid_values := [zeroSizeLevel] } 5 =
        .error "TypeError" := by
  refine ⟨rfl, ?_, ?_⟩
  · norm_num [VAMP_ask, zeroSizeLevel, mkLvl]
  · norm_num [orderbook_slope, zeroSizeLevel, mkLvl]

/-- C3 counterexample: on a full 40-row snapshot whose rows record their
own index, the ask block is NOT the reverse of the first 20 rows after the
matched row (those rows are the bid block). -/
theorem C3_first_rows_are_not_asks :
    ∃ s, get_values 0 sampleDf = .ok s ∧
      s.ask_values ≠ ((sampleDf.take 20).map rowToLevel).reverse := by
  refine ⟨{ ask_values := (((sampleDf.drop 20).take 20).map rowToLevel).reverse,
            bid_values := ((sampleDf.drop 0).take 20).map rowToLevel }, ?_, ?_⟩
  · exact get_values_some sampleDf 0 0 (by decide)
  · decide

/-- C3 (amended): of the 40 rows starting at the matched row, the FIRST 20
form the bid block in forward row order, and the FOLLOWING 20 form the ask
block in reverse row order (so the best ask, level 0, ends up last). -/
theorem C3_block_layout (df : List Row) (ts : ℤ) (index : ℕ)
    (h : List.findIdx? (fun r => r.timestamp_ns == ts) df = some index)
    (_hlen : index + 40 ≤ df.length) :
    get_values ts df = .ok
      { ask_values := (((df.drop (index + 20)).take 20).map rowToLevel).reverse,
        bid_values := ((df.drop index).take 20).map rowToLevel } :=
  get_values_some df ts index h

/-- C3 witness: the block layout evaluated on the concrete 40-row series. -/
theorem C3_block_layout_witness :
    get_values 0 sampleDf = .ok
      { ask_values := (((sampleDf.drop 20).take 20).map rowToLevel).reverse,
        bid_values := ((sampleDf.drop 0).take 20).map rowToLevel } :=
  C3_block_layout sampleDf 0 0 (by decide) (by decide)

/-- C4: `get_values` fails (with `ValueError`) exactly when the timestamp
is absent; on a present timestamp matched at `index` it returns a
snapshot whose level lists are truncated to the available rows
(`min 20` of what remains), and in particular has exactly 20 ask and 20
bid levels whenever 40 rows from the matched row onward exist. -/
theorem C4_lookup_contract (df : List Row) (ts : ℤ) :
    ((∃ e, get_values ts df = .error e) ↔ ts ∉ df.map (fun r => r.timestamp_ns))
    ∧ (∀ index, List.findIdx? (fun r => r.timestamp_ns == ts) df = some index →
        (∃ s, get_values ts df = .ok s ∧
          s.ask_values.length = min 20 (df.length - (index + 20)) ∧
          s.bid_values.length = min 20 (df.length - index)) ∧
        (index + 40 ≤ df.length →
          ∃ s, get_values ts df = .ok s ∧
            s.ask_values.length = 20 ∧ s.bid_values.length = 20)) := by
  constructor
  · cases hf : List.findIdx? (fun r => r.timestamp_ns == ts) df with
    | none =>
      constructor
      · intro _ hmem
        obtain ⟨r, hr, hts⟩ := List.mem_map.mp hmem
        have hfalse := (List.findIdx?_eq_none_iff.mp hf) r hr
        rw [hts] at hfalse
        simp at hfalse
      · intro _
        exact ⟨"ValueError", by simp [get_values, hf]⟩
    | some i =>
      have hok := get_values_some df ts i hf
      constructor
      · intro ⟨e, he⟩
        rw [hok] at he
        simp at he
      · intro hnot
        obtain ⟨x, hx, hpx⟩ := exists_of_findIdx?_some _ df 0 i hf
        exact absurd (List.mem_map.mpr ⟨x, hx, by simpa using hpx⟩) hnot
  · intro index hf
    have hok := get_values_some df ts index hf
    constructor
    · exact ⟨_, hok, by
        simp [List.length_reverse, List.length_map, List.length_take, List.length_drop]⟩
    · intro hlen
      refine ⟨_, hok, ?_, ?_⟩
      · simp [List.length_reverse, List.length_map, List.length_take, List.length_drop]
        omega
      · simp [List.length_map, List.length_take, List.length_drop]
        omega

/-- C4 witness: on the concrete 40-row series at timestamp 0 the snapshot
has exactly 20 ask and 20 bid levels. -/
theorem C4_lookup_contract_witness :
    ∃ s, get_values 0 sampleDf = .ok s ∧
      s.ask_values.length = 20 ∧ s.bid_values.length = 20 :=
  ((C4_lookup_contract sampleDf 0).2 0 (by decide)).2 (by decide)

/-- C6: the fee schedule.  The taker fee is `max(amount × 7.0 bps, 50)` in
the unit of `amount`; for a sell the `amount` is in BTC, so the floor is
50 BTC, not the BTC equivalent of 50 USD: selling 1 BTC against a bid at
midpoint 100 USD burns a 50 BTC fee (100 − (1 + 50) = 49 BTC left),
whereas a 50-USD-equivalent floor (0.5 BTC) would leave 98.5 BTC. -/
theorem C6_fee_floor_in_amount_units :
    (∀ a : ℚ, transaction_cost a false = max (a * (7 / 10000)) 50)
    ∧ sell 1 [bidFloor] 0 100 = .ok (.executed 100 49 1 "sell")
    ∧ (49 : ℚ) < 100 - (1 + 50 / 100) := by
  exact ⟨fun a => rfl,
    by norm_num [sell, sellLoop, bidFloor, mkLvl, transaction_cost], by norm_num⟩

/-- C8: at `step = 1` the reward triple does not depend on
`previous_pnl`; at any `step > 1` the PnL component of the reward is the
quadratic `100 × ((1 + (pnl_percentage − previous_pnl))² − 1)`, a function
of the difference only, and the remaining penalty term reads no PnL field
at all. -/
theorem C8_reward_depends_on_delta :
    (∀ (perf : Performance) (sr p q : ℚ),
      compute_reward_at_t perf sr 1 p = compute_reward_at_t perf sr 1 q)
    ∧ (∀ (perf : Performance) (sr : ℚ) (step : ℤ) (prev : ℚ), 1 < step →
      (compute_reward_at_t perf sr step prev).1 =
        PNL_WEIGHT_STEP * ((1 + (perf.pnl_percentage - prev)) ^ 2 - 1) -
          penalty_term perf step)
    ∧ (∀ (p1 p2 : Performance) (step : ℤ),
      p1.cash_at_t = p2.cash_at_t → p1.btc_at_t = p2.btc_at_t →
      p1.initial_cash = p2.initial_cash → p1.initial_btc = p2.initial_btc →
      p1.target = p2.target → p1.goal = p2.goal → p1.duration = p2.duration →
      penalty_term p1 step = penalty_term p2 step) := by
  refine ⟨fun perf sr p q => rfl, ?_, ?_⟩
  · intro perf sr step prev hstep
    have h1 : step ≠ 1 := by omega
    simp [compute_reward_at_t, h1]
  · intro p1 p2 step h1 h2 h3 h4 h5 h6 h7
    simp only [penalty_term, h1, h2, h3, h4, h5, h6, h7]

/-- C8 witness: the two properties evaluated at a concrete performance
record, step 2 and previous PnL 3. -/
theorem C8_reward_depends_on_delta_witness :
    compute_reward_at_t samplePerf 0 1 5 = compute_reward_at_t samplePerf 0 1 7
    ∧ (compute_reward_at_t samplePerf 0 2 3).1 =
        PNL_WEIGHT_STEP * ((1 + (samplePerf.pnl_percentage - 3)) ^ 2 - 1) -
          penalty_term samplePerf 2 :=
  ⟨C8_reward_depends_on_delta.1 samplePerf 0 5 7,
   C8_reward_depends_on_delta.2.1 samplePerf 0 2 3 (by norm_num)⟩

/-- Helper: under nonzero level prices the buy fill loop never raises. -/
theorem buyLoop_ok (l : List Level) :
    (∀ x ∈ l, x.midpoint_USD * (1 + x.distance_to_mid) ≠ 0) →
    ∀ (amount tc tb : ℚ), ∃ C B, buyLoop l amount (tc, tb) = .ok (C, B) := by
  induction l with
  | nil => intro _ amount tc tb; exact ⟨tc, tb, rfl⟩
  | cons a t ih =>
    intro h amount tc tb
    have ha := h a (List.mem_cons_self a t)
    have ht : ∀ x ∈ t, x.midpoint_USD * (1 + x.distance_to_mid) ≠ 0 :=
      fun x hx => h x (List.mem_cons_of_mem a hx)
    by_cases hc : tc + a.notional_USD ≤ amount
    · obtain ⟨C, B, hCB⟩ := ih ht amount (tc + a.notional_USD) (tb + a.size_BTC)
      exact ⟨C, B, by simpa [buyLoop, hc] using hCB⟩
    · exact ⟨tc + (amount - tc),
        tb + (amount - tc) / (a.midpoint_USD * (1 + a.distance_to_mid)),
        by simp [buyLoop, hc, ha]⟩

/-- Helper: when the balance check passes and every ask price and the
first ask midpoint are nonzero, `buy` reaches the 4-element execution
result. -/
theorem buy_executes (amount cash btc : ℚ) (ask_values : List Level)
    (hask : ∀ x ∈ ask_values,
      x.midpoint_USD ≠ 0 ∧ x.midpoint_USD * (1 + x.distance_to_mid) ≠ 0)
    (h : ¬(amount + transaction_cost amount false > cash ∨ amount ≤ 0)) :
    ∃ c b q, buy amount ask_values cash btc = .ok (.executed c b q "buy") := by
  obtain ⟨C, B, hCB⟩ := buyLoop_ok ask_values.reverse
    (fun x hx => (hask x (List.mem_reverse.mp hx)).2) amount 0 0
  simp only [buy]
  rw [if_neg h, hCB]
  simp only []
  by_cases hB : 0 < B
  · rw [if_pos hB]
    cases ask_values with
    | nil =>
      exfalso
      simp only [List.reverse_nil, buyLoop, Except.ok.injEq, Prod.mk.injEq] at hCB
      obtain ⟨h1, h2⟩ := hCB
      linarith
    | cons a t =>
      simp only []
      rw [if_neg (hask a (List.mem_cons_self a t)).1]
      exact ⟨_, _, _, rfl⟩
  · rw [if_neg hB]
    exact ⟨_, _, _, rfl⟩

/-- Helper: when the balance check passes and every bid midpoint is
nonzero, `sell` reaches the 4-element execution result. -/
theorem sell_executes (amount cash btc : ℚ) (bid_values : List Level)
    (hbid : ∀ x ∈ bid_values, x.midpoint_USD ≠ 0)
    (h : ¬(amount + transaction_cost amount false > btc ∨ amount ≤ 0)) :
    ∃ c b q, sell amount bid_values cash btc = .ok (.executed c b q "sell") := by
  simp only [sell]
  rw [if_neg h]
  by_cases hS : 0 < (sellLoop bid_values amount (0, 0)).1
  · rw [if_pos hS]
    cases bid_values with
    | nil =>
      exfalso
      simp [sellLoop] at hS
    | cons b t =>
      simp only []
      rw [if_neg (hbid b (List.mem_cons_self b t))]
      exact ⟨_, _, _, rfl⟩
  · rw [if_neg hS]
    exact ⟨_, _, _, rfl⟩

/-- C5: `buy` returns the 2-element rejection result, with both balances
unchanged, exactly when `amount ≤ 0` or `amount + fee` exceeds the cash
balance, and `sell` exactly when `amount ≤ 0` or `amount + fee` exceeds
the base-asset balance; otherwise each returns the 4-element execution
result `[new_cash, new_btc, filled, label]` (given nonzero level prices,
under which no exception path is reachable). -/
theorem C5_rejection_contract (amount cash btc : ℚ) (asks bids : List Level)
    (hask : ∀ x ∈ asks,
      x.midpoint_USD ≠ 0 ∧ x.midpoint_USD * (1 + x.distance_to_mid) ≠ 0)
    (hbid : ∀ x ∈ bids, x.midpoint_USD ≠ 0) :
    (buy amount asks cash btc = .ok (.rejected cash btc) ↔
      (amount ≤ 0 ∨ cash < amount + transaction_cost amount false))
    ∧ (sell amount bids cash btc = .ok (.rejected cash btc) ↔
      (amount ≤ 0 ∨ btc < amount + transaction_cost amount false))
    ∧ (¬(amount ≤ 0 ∨ cash < amount + transaction_cost amount false) →
      ∃ c b q, buy amount asks cash btc = .ok (.executed c b q "buy"))
    ∧ (¬(amount ≤ 0 ∨ btc < amount + transaction_cost amount false) →
      ∃ c b q, sell amount bids cash btc = .ok (.executed c b q "sell")) := by
  have hcond : (amount + transaction_cost amount false > cash ∨ amount ≤ 0) ↔
      (amount ≤ 0 ∨ cash < amount + transaction_cost amount false) := or_comm
  have hcond2 : (amount + transaction_cost amount false > btc ∨ amount ≤ 0) ↔
      (amount ≤ 0 ∨ btc < amount + transaction_cost amount false) := or_comm
  refine ⟨?_, ?_, ?_, ?_⟩
  · constructor
    · intro hres
      by_contra hnot
      obtain ⟨c, b, q, hex⟩ := buy_executes amount cash btc asks hask (hcond.not.mpr hnot)
      rw [hres] at hex
      exact absurd (Except.ok.inj hex) (by simp)
    · intro hc
      simp only [buy]
      rw [if_pos (hcond.mpr hc)]
  · constructor
    · intro hres
      by_contra hnot
      obtain ⟨c, b, q, hex⟩ := sell_executes amount cash btc bids hbid (hcond2.not.mpr hnot)
      rw [hres] at hex
      exact absurd (Except.ok.inj hex) (by simp)
    · intro hc
      simp only [sell]
      rw [if_pos (hcond2.mpr hc)]
  · intro hnot
    exact buy_executes amount cash btc asks hask (hcond.not.mpr hnot)
  · intro hnot
    exact sell_executes amount cash btc bids hbid (hcond2.not.mpr hnot)

/-- C5 witness: on empty books the contract evaluates concretely — an
amount of 100 against cash 20 is rejected, and the execution branch is
reachable with cash 1000. -/
theorem C5_rejection_contract_witness :
    (buy 100 [] 20 3 = .ok (.rejected 20 3) ↔
      ((100 : ℚ) ≤ 0 ∨ (20 : ℚ) < 100 + transaction_cost 100 false))
    ∧ (¬((100 : ℚ) ≤ 0 ∨ (1000 : ℚ) < 100 + transaction_cost 100 false) →
      ∃ c b q, buy 100 [] 1000 3 = .ok (.executed c b q "buy")) :=
  ⟨(C5_rejection_contract 100 20 3 [] [] (by simp) (by simp)).1,
   (C5_rejection_contract 100 1000 3 [] [] (by simp) (by simp)).2.2.1⟩

/-- Helper: when the whole list's notional fits within the budget, the buy
fill loop consumes every level entirely. -/
theorem buyLoop_full (l : List Level) :
    (∀ x ∈ l, 0 ≤ x.notional_USD) →
    ∀ (amount tc tb : ℚ), tc + (l.map (fun x => x.notional_USD)).sum ≤ amount →
    buyLoop l amount (tc, tb) =
      .ok (tc + (l.map (fun x => x.notional_USD)).sum,
           tb + (l.map (fun x => x.size_BTC)).sum) := by
  induction l with
  | nil => intro _ amount tc tb _; simp [buyLoop]
  | cons a t ih =>
    intro h amount tc tb hsum
    have ht : ∀ x ∈ t, 0 ≤ x.notional_USD := fun x hx => h x (List.mem_cons_of_mem a hx)
    have htsum : 0 ≤ (t.map (fun x => x.notional_USD)).sum := by
      refine List.sum_nonneg ?_
      intro q hq
      obtain ⟨x, hx, hxq⟩ := List.mem_map.mp hq
      rw [← hxq]
      exact ht x hx
    have hsum' : tc + a.notional_USD + (t.map (fun x => x.notional_USD)).sum ≤ amount := by
      simp only [List.map_cons, List.sum_cons] at hsum
      linarith
    have hc : tc + a.notional_USD ≤ amount := by linarith
    simp only [buyLoop]
    rw [if_pos hc, ih ht amount (tc + a.notional_USD) (tb + a.size_BTC) hsum']
    simp only [List.map_cons, List.sum_cons, add_assoc]

/-- C9: when the balance check passes but `amount` exceeds the total
notional resting on the ask side, `buy` does not reject: it consumes the
whole ladder, deducts only the consumed notional plus the fee computed on
the full requested `amount`, and returns the 4-element execution result
whose filled quantity is the total resting size. -/
theorem C9_buy_exceeds_depth (asks : List Level) (amount cash btc : ℚ)
    (hn : ∀ x ∈ asks, 0 ≤ x.notional_USD)
    (hmid : ∀ x ∈ asks, x.midpoint_USD ≠ 0)
    (hdepth : (asks.map (fun x => x.notional_USD)).sum < amount)
    (hcash : amount + transaction_cost amount false ≤ cash)
    (hpos : 0 < amount) :
    buy amount asks cash btc = .ok (.executed
      (cash - ((asks.map (fun x => x.notional_USD)).sum + transaction_cost amount false))
      (btc + (asks.map (fun x => x.size_BTC)).sum)
      ((asks.map (fun x => x.size_BTC)).sum) "buy") := by
  have hrej : ¬(amount + transaction_cost amount false > cash ∨ amount ≤ 0) :=
    not_or.mpr ⟨not_lt.mpr hcash, not_le.mpr hpos⟩
  have hfull := buyLoop_full asks.reverse
    (fun x hx => hn x (List.mem_reverse.mp hx)) amount 0 0
    (by rw [List.map_reverse, List.sum_reverse]; linarith)
  simp only [List.map_reverse, List.sum_reverse, zero_add] at hfull
  simp only [buy]
  rw [if_neg hrej, hfull]
  simp only []
  by_cases hS : 0 < (asks.map (fun x => x.size_BTC)).sum
  · rw [if_pos hS]
    cases asks with
    | nil => exfalso; simp at hS
    | cons a t =>
      simp only []
      rw [if_neg (hmid a (List.mem_cons_self a t))]
  · rw [if_neg hS]

/-- C9 witness: a 200 USD buy against a single resting ask of 100 USD
notional executes, fills 1 BTC and deducts 100 + fee. -/
theorem C9_buy_exceeds_depth_witness :
    buy 200 [askDeep] 1000 0 = .ok (.executed
      (1000 - (([askDeep].map (fun x => x.notional_USD)).sum + transaction_cost 200 false))
      (0 + ([askDeep].map (fun x => x.size_BTC)).sum)
      (([askDeep].map (fun x => x.size_BTC)).sum) "buy") :=
  C9_buy_exceeds_depth [askDeep] 200 1000 0
    (by norm_num [askDeep, mkLvl])
    (by norm_num [askDeep, mkLvl])
    (by norm_num [askDeep, mkLvl])
    (by norm_num [transaction_cost, max_def])
    (by norm_num)

/-- Helper: bounds on the buy fill loop over a well-formed ask side with
common midpoint `m` (nonnegative distances and sizes, notional consistent
with the reconstructed price).  The accumulated cost never exceeds the
budget, and every acquired unit costs at least `m`. -/
theorem buyLoop_bounds (m : ℚ) (hm : 0 < m) :
    ∀ (l : List Level),
      (∀ x ∈ l, x.midpoint_USD = m ∧ 0 ≤ x.distance_to_mid ∧ 0 ≤ x.size_BTC ∧
        x.notional_USD = x.size_BTC * (x.midpoint_USD * (1 + x.distance_to_mid))) →
      ∀ (amount tc tb : ℚ), tc ≤ amount →
      ∃ C B, buyLoop l amount (tc, tb) = .ok (C, B) ∧ tc ≤ C ∧ C ≤ amount ∧
        tb ≤ B ∧ m * (B - tb) ≤ C - tc := by
  intro l
  induction l with
  | nil =>
    intro _ amount tc tb htc
    exact ⟨tc, tb, rfl, le_refl tc, htc, le_refl tb, by simp⟩
  | cons a t ih =>
    intro h amount tc tb htc
    obtain ⟨hmEq, hd, hs, hnEq⟩ := h a (List.mem_cons_self a t)
    have ht := fun x hx => h x (List.mem_cons_of_mem a hx)
    have hprice : m ≤ a.midpoint_USD * (1 + a.distance_to_mid) := by
      rw [hmEq]; nlinarith
    have hpricepos : 0 < a.midpoint_USD * (1 + a.distance_to_mid) :=
      lt_of_lt_of_le hm hprice
    by_cases hc : tc + a.notional_USD ≤ amount
    · obtain ⟨C, B, heq, h1, h2, h3, h4⟩ :=
        ih ht amount (tc + a.notional_USD) (tb + a.size_BTC) hc
      have hn0 : 0 ≤ a.notional_USD := by
        rw [hnEq]; exact mul_nonneg hs (le_of_lt hpricepos)
      have hms : m * a.size_BTC ≤ a.notional_USD := by
        rw [hnEq, mul_comm]
        exact mul_le_mul_of_nonneg_left hprice hs
      refine ⟨C, B, ?_, by linarith, h2, by linarith, ?_⟩
      · simpa [buyLoop, hc] using heq
      · nlinarith [h4, hms]
    · have hp0 : a.midpoint_USD * (1 + a.distance_to_mid) ≠ 0 := ne_of_gt hpricepos
      have hq0 : 0 ≤ (amount - tc) / (a.midpoint_USD * (1 + a.distance_to_mid)) :=
        div_nonneg (by linarith) (le_of_lt hpricepos)
      refine ⟨tc + (amount - tc),
        tb + (amount - tc) / (a.midpoint_USD * (1 + a.distance_to_mid)),
        by simp [buyLoop, hc, hp0], by linarith, by linarith, by linarith, ?_⟩
      have h5 : m * ((amount - tc) / (a.midpoint_USD * (1 + a.distance_to_mid))) ≤
          (a.midpoint_USD * (1 + a.distance_to_mid)) *
            ((amount - tc) / (a.midpoint_USD * (1 + a.distance_to_mid))) :=
        mul_le_mul_of_nonneg_right hprice hq0
      rw [mul_div_cancel₀ _ hp0] at h5
      have hsimp : tb + (amount - tc) / (a.midpoint_USD * (1 + a.distance_to_mid)) - tb =
          (amount - tc) / (a.midpoint_USD * (1 + a.distance_to_mid)) := by ring
      rw [hsimp]
      linarith

/-- Helper: bounds on the sell fill loop over a well-formed bid side with
common midpoint `m` (nonpositive distances, nonnegative sizes).  The sold
quantity never exceeds the order size and every sold unit yields at most
`m`. -/
theorem sellLoop_bounds (m : ℚ) (hm : 0 ≤ m) :
    ∀ (l : List Level),
      (∀ x ∈ l, x.midpoint_USD = m ∧ x.distance_to_mid ≤ 0 ∧ 0 ≤ x.size_BTC) →
      ∀ (amount s0 r0 : ℚ), s0 ≤ amount →
      ∃ S R, sellLoop l amount (s0, r0) = (S, R) ∧ s0 ≤ S ∧ S ≤ amount ∧
        R - r0 ≤ m * (S - s0) := by
  intro l
  induction l with
  | nil =>
    intro _ amount s0 r0 hs0
    exact ⟨s0, r0, rfl, le_refl s0, hs0, by simp⟩
  | cons b t ih =>
    intro h amount s0 r0 hs0
    obtain ⟨hmEq, hd, hs⟩ := h b (List.mem_cons_self b t)
    have ht := fun x hx => h x (List.mem_cons_of_mem b hx)
    have hprice : b.midpoint_USD * (1 + b.distance_to_mid) ≤ m := by
      rw [hmEq]; nlinarith
    by_cases hc : s0 + b.size_BTC ≤ amount
    · obtain ⟨S, R, heq, g1, g2, g3⟩ :=
        ih ht amount (s0 + b.size_BTC)
          (r0 + b.size_BTC * (b.midpoint_USD * (1 + b.distance_to_mid))) hc
      have hsp : b.size_BTC * (b.midpoint_USD * (1 + b.distance_to_mid)) ≤ b.size_BTC * m :=
        mul_le_mul_of_nonneg_left hprice hs
      refine ⟨S, R, ?_, by linarith, g2, ?_⟩
      · simpa [sellLoop, hc] using heq
      · nlinarith [g3, hsp]
    · have hq : (amount - s0) * (b.midpoint_USD * (1 + b.distance_to_mid)) ≤
          (amount - s0) * m :=
        mul_le_mul_of_nonneg_left hprice (by linarith)
      refine ⟨s0 + (amount - s0),
        r0 + (amount - s0) * (b.midpoint_USD * (1 + b.distance_to_mid)),
        by simp [sellLoop, hc], by linarith, by linarith, ?_⟩
      nlinarith [hq]

/-- C7: on a well-formed snapshot (one positive midpoint `m`, ask
distances nonnegative with consistent notionals, bid distances
nonpositive, sizes nonnegative), whenever `buy` executes, selling the
realized quantity against the same snapshot — whether that sell executes
or is rejected — leaves strictly less cash than before the buy. -/
theorem C7_round_trip (m amount cash btc c1 b1 f : ℚ) (asks bids : List Level)
    (hm : 0 < m)
    (ha : ∀ x ∈ asks, x.midpoint_USD = m ∧ 0 ≤ x.distance_to_mid ∧ 0 ≤ x.size_BTC ∧
      x.notional_USD = x.size_BTC * (x.midpoint_USD * (1 + x.distance_to_mid)))
    (hb : ∀ x ∈ bids, x.midpoint_USD = m ∧ x.distance_to_mid ≤ 0 ∧ 0 ≤ x.size_BTC)
    (hbuy : buy amount asks cash btc = .ok (.executed c1 b1 f "buy")) :
    ∃ r, sell f bids c1 b1 = .ok r ∧ finalCash r < cash := by
  by_cases hrej : (amount + transaction_cost amount false > cash ∨ amount ≤ 0)
  · exfalso
    simp only [buy] at hbuy
    rw [if_pos hrej] at hbuy
    exact absurd (Except.ok.inj hbuy) (by simp)
  · have h0am : (0 : ℚ) ≤ amount := le_of_lt (not_le.mp (not_or.mp hrej).2)
    obtain ⟨C, B, heq, h1, h2, h3, h4⟩ := buyLoop_bounds m hm asks.reverse
      (fun x hx => ha x (List.mem_reverse.mp hx)) amount 0 0 h0am
    simp only [buy] at hbuy
    rw [if_neg hrej, heq] at hbuy
    simp only [] at hbuy
    have key : c1 = cash - (C + transaction_cost amount false) ∧ f = B := by
      by_cases hB : 0 < B
      · rw [if_pos hB] at hbuy
        cases asks with
        | nil =>
          exfalso
          simp only [List.reverse_nil, buyLoop, Except.ok.injEq, Prod.mk.injEq] at heq
          obtain ⟨hh1, hh2⟩ := heq
          linarith
        | cons a t =>
          simp only [] at hbuy
          have ham : a.midpoint_USD ≠ 0 := by
            rw [(ha a (List.mem_cons_self a t)).1]; exact ne_of_gt hm
          rw [if_neg ham] at hbuy
          have hinj := Except.ok.inj hbuy
          injection hinj with e1 e2 e3 e4
          exact ⟨e1.symm, e3.symm⟩
      · rw [if_neg hB] at hbuy
        have hinj := Except.ok.inj hbuy
        injection hinj with e1 e2 e3 e4
        exact ⟨e1.symm, e3.symm⟩
    obtain ⟨hc1, hfB⟩ := key
    have htx : (50 : ℚ) ≤ transaction_cost amount false := le_max_right _ _
    have hmB : m * B ≤ C := by simpa using h4
    by_cases hrej2 : (f + transaction_cost f false > b1 ∨ f ≤ 0)
    · refine ⟨.rejected c1 b1, ?_, ?_⟩
      · simp only [sell]
        rw [if_pos hrej2]
      · simp only [finalCash]
        rw [hc1]
        linarith
    · have h0f : (0 : ℚ) ≤ f := le_of_lt (not_le.mp (not_or.mp hrej2).2)
      obtain ⟨S, R, heq2, g1, g2, g3⟩ := sellLoop_bounds m (le_of_lt hm) bids hb f 0 0 h0f
      have hRmS : R ≤ m * S := by simpa using g3
      have hSB : S ≤ B := hfB ▸ g2
      have hmS : m * S ≤ m * B := mul_le_mul_of_nonneg_left hSB (le_of_lt hm)
      have htx2 : (50 : ℚ) ≤ transaction_cost f false := le_max_right _ _
      by_cases hS : 0 < S
      · cases bids with
        | nil =>
          exfalso
          simp only [sellLoop, Prod.mk.injEq] at heq2
          obtain ⟨hh1, hh2⟩ := heq2
          linarith
        | cons b t =>
          have hbm : b.midpoint_USD ≠ 0 := by
            rw [(hb b (List.mem_cons_self b t)).1]; exact ne_of_gt hm
          refine ⟨.executed (c1 + R) (b1 - (S + transaction_cost f false)) S "sell", ?_, ?_⟩
          · simp only [sell]
            rw [if_neg hrej2, heq2]
            simp only []
            rw [if_pos hS]
            rw [if_neg hbm]
          · simp only [finalCash]
            rw [hc1]
            linarith
      · refine ⟨.executed (c1 + R) (b1 - (S + transaction_cost f false)) S "sell", ?_, ?_⟩
        · simp only [sell]
          rw [if_neg hrej2, heq2]
          simp only []
          rw [if_neg hS]
        · simp only [finalCash]
          rw [hc1]
          linarith

/-- C7 witness: buy 500 USD at midpoint 100 (fill 5 BTC at 450 cash
left), then sell the 5 BTC against the same snapshot: the final cash is
below the initial 1000. -/
theorem C7_round_trip_witness :
    ∃ r, sell 5 [bidRT] 450 105 = .ok r ∧ finalCash r < 1000 :=
  C7_round_trip 100 500 1000 100 450 105 5 [askRT] [bidRT] (by norm_num)
    (by norm_num [askRT, mkLvl])
    (by norm_num [bidRT, mkLvl])
    (by norm_num [buy, buyLoop, askRT, mkLvl, transaction_cost, max_def])

/-- C10: `get_performance` reads the midpoint of the first ask level
unconditionally, so an empty ask side is an `IndexError` for every choice
of the other arguments — even though the `midpoint` indicator falls back
to the first bid level in that situation. -/
theorem C10_performance_requires_asks :
    (∀ (ic ib cc cb : ℚ) (bids : List Level) (g : String) (t : ℚ) (d : ℤ),
      get_performance ic ib cc cb { ask_values := [], bid_values := bids } g t d =
        .error "IndexError")
    ∧ (∀ (b0 : Level) (bs : List Level),
      midpoint { ask_values := [], bid_values := b0 :: bs } = some b0.midpoint_USD) :=
  ⟨fun _ _ _ _ _ _ _ _ => rfl, fun _ _ => rfl⟩

end NeoRL
